import Mathlib

/-!
# Verification of the hono-openapi route-introspection and build tooling

This file embeds, in Lean 4, the data model and operations of the
hono-openapi repository:

* the OpenAPI document generation (`generateSpecs` over routes registered
  with `describeRoute` metadata), modelled from the specification since the
  implementation files (`src/handler.ts`, `src/middlewares.ts`) are not part
  of the sources here — only their test suite is;
* the packaging script `build.ts` (`getEntrypoints`, the external-dependency
  computation of `buildJS`, `generatePackageJson`, `generateJsrJson`, `main`),
  embedded directly from the source.

JavaScript objects are embedded as association lists of string keys with
in-place replacing insertion, which models both the uniqueness of JS object
keys and the last-write-wins semantics of repeated assignment.
-/

set_option autoImplicit false

namespace HonoOpenapi

universe u v

/-! ## Association-list machinery (the embedding of JS objects) -/

/-- Insertion into a JS object: assigning `obj[k] = v` replaces the value at
an existing key in place, otherwise appends the new key at the end. -/
def insertKV {α : Type u} : List (String × α) → String → α → List (String × α)
  | [], k, v => [(k, v)]
  | (k1, v1) :: rest, k, v =>
    if k1 = k then (k, v) :: rest else (k1, v1) :: insertKV rest k v

/-- Key lookup in a JS object (first entry with the key). -/
def alookup {α : Type u} : List (String × α) → String → Option α
  | [], _ => none
  | (k1, v1) :: rest, k => if k1 = k then some v1 else alookup rest k

/-- Left-biased choice on options. -/
def optOr {α : Type u} : Option α → Option α → Option α
  | some v, _ => some v
  | none, o => o

/-- The last `some` produced by `f` along the list, if any. -/
def lastSome {α : Type u} {β : Type v} (f : β → Option α) (l : List β) : Option α :=
  l.foldl (fun acc b => optOr (f b) acc) none

/-- Merging one JS object into another with `Object.assign`-style semantics:
every entry of `upd` is assigned into `base`, later entries overwriting. -/
def mergeObj {α : Type u} (base upd : List (String × α)) : List (String × α) :=
  upd.foldl (fun acc kv => insertKV acc kv.1 kv.2) base

/-- Folding several JS objects into one, left to right. -/
def mergeAll {α : Type u} (ds : List (List (String × α))) : List (String × α) :=
  ds.foldl mergeObj []

/-- The value an object entry list assigns to `k`, last assignment winning. -/
def lastVal {α : Type u} (l : List (String × α)) (k : String) : Option α :=
  lastSome (fun kv => if kv.1 = k then some kv.2 else none) l

/-- The value key `k` receives when the dictionaries `ds` are merged in
order: the value from the last dictionary that mentions `k`. -/
def lastWins {α : Type u} (ds : List (List (String × α))) (k : String) : Option α :=
  lastSome (fun d => lastVal d k) ds

/-! ## The OpenAPI document generation (`describeRoute` / `generateSpecs`)

The implementation (`src/handler.ts`, `src/middlewares.ts`) is not among the
sources; the definitions below are modelled from the specification, guided by
the shapes exercised in `src/__tests__/flat-syntax.test.ts`. -/

/-- A JSON value, the output currency of `generateSpecs`. Objects are
association lists in insertion order. -/
inductive Json : Type where
  | str : String → Json
  | num : Int → Json
  | obj : List (String × Json) → Json

/-- Modelled from the spec: a validation-library schema object. The claims
only concern where the converted schema is placed in the document, so the
schema itself is opaque, identified by an index. -/
def Schema : Type := Nat

instance : DecidableEq Schema := fun a b => Nat.decEq a b

instance : OfNat Schema 1 := ⟨(1 : Nat)⟩

/-- Modelled from the spec: "converting each validation schema into an
OpenAPI-compatible schema representation". The conversion itself belongs to
the borrowed schema library; only its result's placement matters here. -/
def convertSchema (s : Schema) : Json :=
  Json.obj [("schemaOf", Json.num (Int.ofNat s))]

/-- Modelled from the spec: one flat-syntax entry of the `responses` map
given to `describeRoute` — an optional human description, an optional
explicit content type (`type`), an optional convenience `status` field, and
an optional validation schema. -/
structure RouteResponse : Type where
  description : Option String
  type : Option String
  status : Option Nat
  schema : Option Schema
deriving DecidableEq

/-- Modelled from the spec: the route documentation passed to
`describeRoute` — an optional description and a `responses` map. -/
structure DescribeRouteSpec : Type where
  description : Option String
  responses : List (String × RouteResponse)
deriving DecidableEq

/-- A route registered on the framework: path, HTTP method, and the
optional `describeRoute` metadata attached to its handler chain. -/
structure RegisteredRoute : Type where
  path : String
  method : String
  doc : Option DescribeRouteSpec
deriving DecidableEq

/-- Modelled from the spec: "collapsing a convenience `status` field into
the map key" — a response carrying `status` is keyed under that status code,
otherwise under its original map key. -/
def respKey (k : String) (r : RouteResponse) : String :=
  match r.status with
  | some n => toString n
  | none => k

/-- Modelled from the spec: the emitted response object. The description is
kept; a schema is wrapped under `content/<media-type>/schema`, where the
media type is the explicit `type` if given and `application/json` by
default. The convenience `status` field and the flat `schema` field are not
emitted. -/
def normalizeResponse (r : RouteResponse) : List (String × Json) :=
  (match r.description with
    | some d => [("description", Json.str d)]
    | none => [])
  ++ (match r.schema with
    | some s =>
      [("content", Json.obj
        [(r.type.getD "application/json", Json.obj [("schema", convertSchema s)])])]
    | none => [])

/-- The emitted `responses` object: each entry normalized and assigned under
its collapsed key. -/
def buildResponses (rs : List (String × RouteResponse)) : List (String × Json) :=
  rs.foldl (fun acc kr => insertKV acc (respKey kr.1 kr.2) (Json.obj (normalizeResponse kr.2))) []

/-- The operation object emitted for one route's metadata: its description
(when present) and its normalized responses. -/
def operationDict (d : DescribeRouteSpec) : List (String × Json) :=
  (match d.description with
    | some s => [("description", Json.str s)]
    | none => [])
  ++ [("responses", Json.obj (buildResponses d.responses))]

/-- Lower-casing of HTTP method names (JS `String.prototype.toLowerCase`
on the ASCII method names the framework registers). -/
def toLowerStr (s : String) : String :=
  String.mk (s.data.map Char.toLower)

/-- Routes are keyed first by path, then by lower-case HTTP method. -/
def routeKey (r : RegisteredRoute) : String × String :=
  (r.path, toLowerStr r.method)

/-- Adding one registered route into the nested paths dictionary: the
operation dictionary is merged (key-wise, last write winning) into whatever
the same path and method already accumulated; routes without metadata
contribute nothing. -/
def addRoute (paths : List (String × List (String × List (String × Json))))
    (r : RegisteredRoute) : List (String × List (String × List (String × Json))) :=
  match r.doc with
  | none => paths
  | some d =>
    let m := toLowerStr r.method
    let pobj := (alookup paths r.path).getD []
    let oldOp := (alookup pobj m).getD []
    insertKV paths r.path (insertKV pobj m (mergeObj oldOp (operationDict d)))

/-- The aggregated `paths` dictionary over all registered routes. -/
def buildPaths (routes : List RegisteredRoute) :
    List (String × List (String × List (String × Json))) :=
  routes.foldl addRoute []

/-- Rendering the nested paths dictionary as a JSON object. -/
def pathsToJson (paths : List (String × List (String × List (String × Json)))) : Json :=
  Json.obj (paths.map (fun pe =>
    (pe.1, Json.obj (pe.2.map (fun me => (me.1, Json.obj me.2))))))

/-- Modelled from the spec: `generateSpecs` walks the framework's registered
routes and produces a single aggregated OpenAPI document whose operations
live under `paths`, keyed by path and lower-case method. -/
def generateSpecs (routes : List RegisteredRoute) : Json :=
  Json.obj [("openapi", Json.str "3.1.0"), ("paths", pathsToJson (buildPaths routes))]

/-- Lookup of a key in a JSON object value. -/
def jlookup (j : Json) (k : String) : Option Json :=
  match j with
  | Json.obj l => alookup l k
  | _ => none

/-- The operation object the document holds at path `p`, method `m`. -/
def docOp (doc : Json) (p m : String) : Option Json :=
  ((jlookup doc "paths").bind (fun ps => jlookup ps p)).bind (fun po => jlookup po m)

/-- The response object the document holds at path `p`, method `m`,
response key `k`. -/
def respLookup (doc : Json) (p m k : String) : Option Json :=
  ((docOp doc p m).bind (fun op => jlookup op "responses")).bind (fun rs => jlookup rs k)

/-- The operation dictionary held in the nested paths dictionary at path
`p`, method `m` (the pre-rendering counterpart of `docOp`). -/
def opLookup (paths : List (String × List (String × List (String × Json)))) (p m : String) :
    Option (List (String × Json)) :=
  (alookup paths p).bind (fun po => alookup po m)

/-- The effect of one route on the operation accumulated at path `p`,
method `m`: a route with metadata hitting that slot merges its operation
dictionary over the current one; any other route leaves it unchanged. -/
def stepF (p m : String) (cur : Option (List (String × Json))) (r : RegisteredRoute) :
    Option (List (String × Json)) :=
  match r.doc with
  | none => cur
  | some d =>
    if r.path = p ∧ toLowerStr r.method = m then
      some (mergeObj (cur.getD []) (operationDict d))
    else cur

/-- Key uniqueness at every level of the nested paths dictionary. -/
def PathsInv (acc : List (String × List (String × List (String × Json)))) : Prop :=
  (acc.map Prod.fst).Nodup ∧
  ∀ pe ∈ acc, (pe.2.map Prod.fst).Nodup ∧ ∀ me ∈ pe.2, (me.2.map Prod.fst).Nodup

/-! ## The build script (`build.ts`), embedded from the source -/

/-- The compile-time configuration block of `build.ts` (the fields the
verified functions read). -/
structure Config : Type where
  name : String
  version : String
  includeDevDependencies : Bool
  includeDependencies : Bool
  bundledDependencies : List String
  entryFile : String
  srcDir : String
  distDir : String
deriving DecidableEq

/-- The `CONFIG` constant of `build.ts`. -/
def CONFIG : Config :=
  { name := "hono-openapi", version := "1.2.0", includeDevDependencies := false,
    includeDependencies := true, bundledDependencies := [],
    entryFile := "index.ts", srcDir := "src", distDir := "dist" }

/-- One build target found by `getEntrypoints`. -/
structure BuildTarget : Type where
  entryPath : String
  outDir : String
  exportKey : String
  relDir : String
deriving DecidableEq

/-- The fields of the root `package.json` that the verified functions read;
the dependency maps are JS objects (association lists). -/
structure RootPackageJson : Type where
  dependencies : Option (List (String × String))
  devDependencies : Option (List (String × String))
  peerDependencies : Option (List (String × String))
deriving DecidableEq

/-- Splitting a character list at `/`. -/
def splitSlashAux : List Char → List Char → List (List Char)
  | [], cur => [cur.reverse]
  | c :: rest, cur =>
    if c = '/' then cur.reverse :: splitSlashAux rest [] else splitSlashAux rest (c :: cur)

/-- POSIX path segments of a relative path (as produced by `Bun.Glob.scan`). -/
def splitSlash (s : String) : List String :=
  (splitSlashAux s.data []).map String.mk

/-- `path.basename`: the final path segment. -/
def baseName (f : String) : String :=
  (splitSlash f).getLastD f

/-- Joining path segments back with `/`. -/
def joinSlash : List String → String
  | [] => ""
  | [x] => x
  | x :: rest => x ++ "/" ++ joinSlash rest

/-- `path.dirname` on a relative path: everything before the final segment,
`"."` when there is no directory part. -/
def dirName (f : String) : String :=
  let parts := splitSlash f
  if parts.length ≤ 1 then "." else joinSlash parts.dropLast

/-- `path.join` for the shapes `build.ts` uses: a directory joined with a
relative path, where joining with `"."` normalizes away the dot. -/
def pathJoin (a b : String) : String :=
  if b = "." then a else a ++ "/" ++ b

/-- Whether a scanned file matches the glob `**/<entryFile>`: its final
segment is exactly the entry file name, at any depth. -/
def matchesEntryGlob (cfg : Config) (f : String) : Bool :=
  baseName f == cfg.entryFile

/-- The `BuildTarget` record `getEntrypoints` builds for one matching file
(backslash normalization is the identity on the POSIX paths modelled here). -/
def mkTarget (cfg : Config) (f : String) : BuildTarget :=
  let relDir := dirName f
  { entryPath := pathJoin cfg.srcDir f,
    outDir := pathJoin cfg.distDir relDir,
    exportKey := if relDir = "." then "." else "./" ++ relDir,
    relDir := relDir }

/-- `getEntrypoints` over the list of files found under `srcDir`: collects a
target per file matching `**/<entryFile>` and throws when none was found. -/
def getEntrypoints (cfg : Config) (files : List String) : Except String (List BuildTarget) :=
  let targets := (files.filter (matchesEntryGlob cfg)).map (mkTarget cfg)
  if targets.length = 0 then
    Except.error ("Nenhum " ++ cfg.entryFile ++ " encontrado em " ++ cfg.srcDir ++ "/")
  else
    Except.ok targets

/-- `Object.keys(rootPkg?.dependencies)` of `buildJS`, `[]` when absent. -/
def rootDepNames (rootPkg : Option RootPackageJson) : List String :=
  match rootPkg with
  | some p =>
    match p.dependencies with
    | some d => d.map Prod.fst
    | none => []
  | none => []

/-- `Object.keys(rootPkg?.peerDependencies)` of `buildJS`, `[]` when absent. -/
def rootPeerDepNames (rootPkg : Option RootPackageJson) : List String :=
  match rootPkg with
  | some p =>
    match p.peerDependencies with
    | some d => d.map Prod.fst
    | none => []
  | none => []

/-- The `external` list `buildJS` passes to the bundler: all root
dependencies and peer dependencies except the bundled ones. -/
def computeExternal (cfg : Config) (rootPkg : Option RootPackageJson) : List String :=
  (rootDepNames rootPkg ++ rootPeerDepNames rootPkg).filter
    (fun dep => !(cfg.bundledDependencies.contains dep))

/-- The `pathPrefix` local of `generatePackageJson` and `generateJsrJson`. -/
def pathPrefOf (t : BuildTarget) : String :=
  if t.relDir = "." then "" else t.relDir ++ "/"

/-- One value of the `exports` map written to `dist/package.json`. -/
structure PkgExportEntry : Type where
  types : String
  importPath : String
  defaultPath : String
deriving DecidableEq

/-- The `exports` entry `generatePackageJson` builds for one target
(`types` / `import` / `default` fields of the JS object). -/
def pkgExportFor (t : BuildTarget) : PkgExportEntry :=
  { types := "./" ++ pathPrefOf t ++ "index.d.ts",
    importPath := "./" ++ pathPrefOf t ++ "index.js",
    defaultPath := "./" ++ pathPrefOf t ++ "index.js" }

/-- The `exports` map of `generatePackageJson` (`dist/package.json`). -/
def pkgExports (targets : List BuildTarget) : List (String × PkgExportEntry) :=
  targets.foldl (fun acc t => insertKV acc t.exportKey (pkgExportFor t)) []

/-- The `exports` map of `generateJsrJson` (`dist/jsr.json`). -/
def jsrExports (targets : List BuildTarget) : List (String × String) :=
  targets.foldl (fun acc t => insertKV acc t.exportKey ("./" ++ pathPrefOf t ++ "index.js")) []

/-- The `dependencies` map `generatePackageJson` writes: the root
dependencies, minus the bundled ones, when `includeDependencies` is set. -/
def distDependencies (cfg : Config) (rootPkg : Option RootPackageJson) :
    List (String × String) :=
  match rootPkg with
  | none => []
  | some p =>
    if cfg.includeDependencies then
      match p.dependencies with
      | some d =>
        d.foldl
          (fun acc nv =>
            if cfg.bundledDependencies.contains nv.1 then acc else insertKV acc nv.1 nv.2)
          []
      | none => []
    else []

/-- The observable outcome of `main`: the process exit code and whether the
dist `package.json` and `jsr.json` were written. -/
structure BuildOutcome : Type where
  exitCode : Nat
  wrotePackageJson : Bool
  wroteJsrJson : Bool
deriving DecidableEq

/-- The control flow of `main` around `getEntrypoints`: any thrown error is
caught, reported, and turns into `process.exit(1)` before the manifests are
generated. `bundleOk` and `declOk` stand for the success of the later
`Bun.build` and `tsc` invocations. -/
def mainModel (cfg : Config) (files : List String) (bundleOk declOk : Bool) : BuildOutcome :=
  match getEntrypoints cfg files with
  | Except.error _ => ⟨1, false, false⟩
  | Except.ok _ =>
    if bundleOk = false then ⟨1, false, false⟩
    else if declOk = false then ⟨1, false, false⟩
    else ⟨0, true, true⟩

/-! ## Concrete instances used by the witnesses -/

/-- The response of the "simple schema" test: a schema, no explicit type. -/
def sampleResp : RouteResponse := ⟨some "Success", none, none, some 1⟩

/-- The response of the "custom type" test: an explicit media type. -/
def sampleRespTyped : RouteResponse :=
  ⟨some "Bad Request", some "application/problem+json", none, some 1⟩

/-- The response of the "with status property" test: a convenience status. -/
def sampleRespStatus : RouteResponse := ⟨some "Success", none, some 200, some 1⟩

/-- Metadata of the simple-schema test route. -/
def sampleDoc : DescribeRouteSpec := ⟨some "Test route", [("200", sampleResp)]⟩

/-- Metadata of the custom-type test route. -/
def sampleDocTyped : DescribeRouteSpec := ⟨some "Test route", [("400", sampleRespTyped)]⟩

/-- Metadata of the status-property test route. -/
def sampleDocStatus : DescribeRouteSpec := ⟨some "Test route", [("200", sampleRespStatus)]⟩

/-- The route of the simple-schema test. -/
def sampleRoute : RegisteredRoute := ⟨"/", "GET", some sampleDoc⟩

/-- The route of the custom-type test. -/
def sampleRouteTyped : RegisteredRoute := ⟨"/", "GET", some sampleDocTyped⟩

/-- The route of the status-property test. -/
def sampleRouteStatus : RegisteredRoute := ⟨"/", "GET", some sampleDocStatus⟩

/-- A build target at the package root, as for `src/index.ts`. -/
def sampleTarget : BuildTarget :=
  { entryPath := "src/index.ts", outDir := "dist", exportKey := ".", relDir := "." }

/-! ## Properties of the association-list machinery -/

@[simp] theorem optOr_none_left {α : Type u} (o : Option α) : optOr none o = o := rfl

@[simp] theorem optOr_none_right {α : Type u} (o : Option α) : optOr o none = o := by
  cases o <;> rfl

@[simp] theorem optOr_some {α : Type u} (v : α) (o : Option α) :
    optOr (some v) o = some v := rfl

theorem optOr_assoc {α : Type u} (a b c : Option α) :
    optOr (optOr a b) c = optOr a (optOr b c) := by
  cases a <;> cases b <;> rfl

theorem insertKV_cons_self {α : Type u} (k : String) (v v1 : α) (tl : List (String × α)) :
    insertKV ((k, v1) :: tl) k v = (k, v) :: tl := by
  simp [insertKV]

theorem insertKV_cons_ne {α : Type u} (k1 k : String) (v1 v : α) (tl : List (String × α))
    (h : k1 ≠ k) : insertKV ((k1, v1) :: tl) k v = (k1, v1) :: insertKV tl k v := by
  simp [insertKV, h]

@[simp] theorem alookup_cons_self {α : Type u} (k : String) (v : α) (tl : List (String × α)) :
    alookup ((k, v) :: tl) k = some v := by
  simp [alookup]

theorem alookup_cons_ne {α : Type u} (k1 k : String) (v : α) (tl : List (String × α))
    (h : k1 ≠ k) : alookup ((k1, v) :: tl) k = alookup tl k := by
  simp [alookup, h]

@[simp] theorem alookup_insertKV_self {α : Type u} (l : List (String × α)) (k : String) (v : α) :
    alookup (insertKV l k v) k = some v := by
  induction l with
  | nil => simp [insertKV, alookup]
  | cons hd tl ih =>
    obtain ⟨k1, v1⟩ := hd
    by_cases h : k1 = k <;> simp [insertKV, alookup, h, ih]

theorem alookup_insertKV_ne {α : Type u} (l : List (String × α)) (k k2 : String) (v : α)
    (h : k2 ≠ k) : alookup (insertKV l k v) k2 = alookup l k2 := by
  have h3 : ¬(k = k2) := fun he => h he.symm
  induction l with
  | nil => simp [insertKV, alookup, h3]
  | cons hd tl ih =>
    obtain ⟨k1, v1⟩ := hd
    by_cases h1 : k1 = k
    · subst h1
      rw [insertKV_cons_self]
      simp [alookup, h3]
    · rw [insertKV_cons_ne _ _ _ _ _ h1]
      by_cases h2 : k1 = k2 <;> simp [alookup, h2, ih]

theorem mem_keys_insertKV {α : Type u} (l : List (String × α)) (k a : String) (v : α) :
    a ∈ (insertKV l k v).map Prod.fst ↔ a ∈ l.map Prod.fst ∨ a = k := by
  induction l with
  | nil => simp [insertKV]
  | cons hd tl ih =>
    obtain ⟨k1, v1⟩ := hd
    by_cases h : k1 = k
    · subst h
      rw [insertKV_cons_self]
      simp only [List.map_cons, List.mem_cons]
      tauto
    · rw [insertKV_cons_ne _ _ _ _ _ h]
      simp only [List.map_cons, List.mem_cons, ih]
      tauto

theorem nodup_keys_insertKV {α : Type u} (l : List (String × α)) (k : String) (v : α)
    (h : (l.map Prod.fst).Nodup) : ((insertKV l k v).map Prod.fst).Nodup := by
  induction l with
  | nil => simp [insertKV]
  | cons hd tl ih =>
    obtain ⟨k1, v1⟩ := hd
    simp only [List.map_cons, List.nodup_cons] at h
    by_cases hk : k1 = k
    · subst hk
      rw [insertKV_cons_self]
      simp only [List.map_cons, List.nodup_cons]
      exact h
    · rw [insertKV_cons_ne _ _ _ _ _ hk]
      simp only [List.map_cons, List.nodup_cons]
      refine ⟨?_, ih h.2⟩
      rw [mem_keys_insertKV]
      push_neg
      exact ⟨h.1, hk⟩

theorem lastSome_foldl_init {α : Type u} {β : Type v} (f : β → Option α) (l : List β)
    (init : Option α) :
    l.foldl (fun acc b => optOr (f b) acc) init = optOr (lastSome f l) init := by
  induction l generalizing init with
  | nil => simp [lastSome]
  | cons hd tl ih =>
    have h1 : lastSome f (hd :: tl) = optOr (lastSome f tl) (f hd) := by
      show List.foldl _ (optOr (f hd) none) tl = _
      rw [ih, optOr_none_right]
    show List.foldl _ (optOr (f hd) init) tl = _
    rw [ih, h1, optOr_assoc]

theorem lastSome_cons {α : Type u} {β : Type v} (f : β → Option α) (b : β) (l : List β) :
    lastSome f (b :: l) = optOr (lastSome f l) (f b) := by
  show List.foldl _ (optOr (f b) none) l = _
  rw [lastSome_foldl_init, optOr_none_right]

theorem lastSome_of_all_none {α : Type u} {β : Type v} (f : β → Option α) (l : List β)
    (h : ∀ b ∈ l, f b = none) : lastSome f l = none := by
  induction l with
  | nil => rfl
  | cons hd tl ih =>
    rw [lastSome_cons, h hd (List.mem_cons_self hd tl),
      ih fun b hb => h b (List.mem_cons_of_mem hd hb)]
    rfl

/-- Lookup after a `mergeObj`: entries of `upd` win over `base`,
and among the entries of `upd` the last assignment wins. -/
theorem alookup_mergeObj {α : Type u} (base upd : List (String × α)) (k : String) :
    alookup (mergeObj base upd) k = optOr (lastVal upd k) (alookup base k) := by
  induction upd generalizing base with
  | nil => simp [mergeObj, lastVal, lastSome]
  | cons hd tl ih =>
    obtain ⟨k1, v1⟩ := hd
    show alookup (mergeObj (insertKV base k1 v1) tl) k = _
    rw [ih (insertKV base k1 v1)]
    unfold lastVal
    rw [lastSome_cons]
    by_cases h : k1 = k
    · subst h
      rw [alookup_insertKV_self]
      simp [optOr_assoc]
    · rw [alookup_insertKV_ne base k1 k v1 (fun he => h he.symm)]
      simp [h, optOr_assoc]

theorem alookup_mergeAll {α : Type u} (ds : List (List (String × α))) (k : String) :
    alookup (mergeAll ds) k = lastWins ds k := by
  suffices h : ∀ (acc : List (String × α)),
      alookup (ds.foldl mergeObj acc) k = optOr (lastWins ds k) (alookup acc k) by
    have h2 := h []
    rw [show alookup ([] : List (String × α)) k = none from rfl, optOr_none_right] at h2
    exact h2
  induction ds with
  | nil => intro acc; simp [lastWins, lastSome]
  | cons d tl ih =>
    intro acc
    show alookup (tl.foldl mergeObj (mergeObj acc d)) k = _
    rw [ih (mergeObj acc d), alookup_mergeObj]
    unfold lastWins
    rw [lastSome_cons, optOr_assoc]

theorem nodup_keys_mergeObj {α : Type u} (base upd : List (String × α))
    (h : (base.map Prod.fst).Nodup) : ((mergeObj base upd).map Prod.fst).Nodup := by
  induction upd generalizing base with
  | nil => exact h
  | cons hd tl ih =>
    exact ih (insertKV base hd.1 hd.2) (nodup_keys_insertKV base hd.1 hd.2 h)

theorem nodup_keys_mergeAll {α : Type u} (ds : List (List (String × α))) :
    ((mergeAll ds).map Prod.fst).Nodup := by
  suffices h : ∀ (acc : List (String × α)), (acc.map Prod.fst).Nodup →
      (((ds.foldl mergeObj acc).map Prod.fst)).Nodup by
    exact h [] (by simp)
  induction ds with
  | nil => intro acc hacc; exact hacc
  | cons d tl ih =>
    intro acc hacc
    exact ih (mergeObj acc d) (nodup_keys_mergeObj acc d hacc)

/-- Lookup after folding keyed insertions over a list: the last matching
element wins, falling back to the accumulator. -/
theorem alookup_foldl_insertKV {α : Type u} {β : Type v} (key : β → String) (val : β → α)
    (l : List β) (acc : List (String × α)) (k : String) :
    alookup (l.foldl (fun a b => insertKV a (key b) (val b)) acc) k
      = optOr (lastSome (fun b => if key b = k then some (val b) else none) l)
          (alookup acc k) := by
  induction l generalizing acc with
  | nil => simp [lastSome]
  | cons hd tl ih =>
    show alookup (List.foldl _ (insertKV acc (key hd) (val hd)) tl) k = _
    rw [ih (insertKV acc (key hd) (val hd)), lastSome_cons]
    by_cases h : key hd = k
    · subst h
      rw [alookup_insertKV_self]
      simp [optOr_assoc]
    · rw [alookup_insertKV_ne acc (key hd) k (val hd) (fun he => h he.symm)]
      simp [h, optOr_assoc]

/-- If the keys along the list are distinct, the fold of keyed lookups at
a member's key yields that member's value. -/
theorem lastSome_key_unique {α : Type u} {β : Type v} (key : β → String) (val : β → α)
    (l : List β) (b : β) (hnd : (l.map key).Nodup) (hb : b ∈ l) :
    lastSome (fun x => if key x = key b then some (val x) else none) l = some (val b) := by
  induction l with
  | nil => cases hb
  | cons hd tl ih =>
    simp only [List.map_cons, List.nodup_cons] at hnd
    rw [lastSome_cons]
    rcases List.mem_cons.mp hb with hb1 | hb1
    · subst hb1
      rw [lastSome_of_all_none _ tl ?_]
      · simp
      · intro x hx
        have hx2 : key x ≠ key b := by
          intro hcon
          exact hnd.1 (hcon ▸ List.mem_map_of_mem key hx)
        simp [hx2]
    · have hb2 : key hd ≠ key b := by
        intro hcon
        exact hnd.1 (hcon ▸ List.mem_map_of_mem key hb1)
      rw [ih hnd.2 hb1]
      simp

/-! ## Properties of the document generation model -/

theorem alookup_map_snd {α : Type u} {β : Type v} (g : α → β) (l : List (String × α))
    (k : String) :
    alookup (l.map (fun e => (e.1, g e.2))) k = (alookup l k).map g := by
  induction l with
  | nil => simp [alookup]
  | cons hd tl ih =>
    obtain ⟨k1, v1⟩ := hd
    by_cases h : k1 = k <;> simp [alookup, h, ih]

theorem alookup_mem {α : Type u} (l : List (String × α)) (k : String) (v : α)
    (h : alookup l k = some v) : (k, v) ∈ l := by
  induction l with
  | nil => simp [alookup] at h
  | cons hd tl ih =>
    obtain ⟨k1, v1⟩ := hd
    by_cases h1 : k1 = k
    · subst h1
      rw [alookup_cons_self] at h
      exact Option.some_injective _ h ▸ List.mem_cons_self _ _
    · rw [alookup_cons_ne _ _ _ _ h1] at h
      exact List.mem_cons_of_mem _ (ih h)

theorem mem_insertKV {α : Type u} (l : List (String × α)) (k : String) (v : α)
    (x : String × α) (h : x ∈ insertKV l k v) : x = (k, v) ∨ x ∈ l := by
  induction l with
  | nil => simpa [insertKV] using h
  | cons hd tl ih =>
    obtain ⟨k1, v1⟩ := hd
    by_cases h1 : k1 = k
    · subst h1
      rw [insertKV_cons_self] at h
      rcases List.mem_cons.mp h with h2 | h2
      · exact Or.inl h2
      · exact Or.inr (List.mem_cons_of_mem _ h2)
    · rw [insertKV_cons_ne _ _ _ _ _ h1] at h
      rcases List.mem_cons.mp h with h2 | h2
      · exact Or.inr (h2 ▸ List.mem_cons_self _ _)
      · rcases ih h2 with h3 | h3
        · exact Or.inl h3
        · exact Or.inr (List.mem_cons_of_mem _ h3)

theorem nodup_keys_foldl_insertKV {α : Type u} {β : Type v} (key : β → String) (val : β → α)
    (l : List β) (acc : List (String × α)) (h : (acc.map Prod.fst).Nodup) :
    (((l.foldl (fun a b => insertKV a (key b) (val b)) acc).map Prod.fst)).Nodup := by
  induction l generalizing acc with
  | nil => exact h
  | cons hd tl ih =>
    exact ih (insertKV acc (key hd) (val hd)) (nodup_keys_insertKV acc (key hd) (val hd) h)

theorem alookup_normalizeResponse_statusKey (r : RouteResponse) :
    alookup (normalizeResponse r) "status" = none := by
  obtain ⟨d, t, st, s⟩ := r
  cases d <;> cases s <;> simp [normalizeResponse, alookup]

theorem alookup_normalizeResponse_schemaKey (r : RouteResponse) :
    alookup (normalizeResponse r) "schema" = none := by
  obtain ⟨d, t, st, s⟩ := r
  cases d <;> cases s <;> simp [normalizeResponse, alookup]

theorem alookup_normalizeResponse_content (r : RouteResponse) (s : Schema)
    (hs : r.schema = some s) :
    alookup (normalizeResponse r) "content"
      = some (Json.obj
          [(r.type.getD "application/json", Json.obj [("schema", convertSchema s)])]) := by
  obtain ⟨d, t, st, s0⟩ := r
  cases hs
  cases d <;> simp [normalizeResponse, alookup]

theorem alookup_operationDict_responses (d : DescribeRouteSpec) :
    alookup (operationDict d) "responses" = some (Json.obj (buildResponses d.responses)) := by
  obtain ⟨de, rs⟩ := d
  cases de <;> simp [operationDict, alookup]

theorem alookup_operationDict_description (d : DescribeRouteSpec) :
    alookup (operationDict d) "description" = Option.map Json.str d.description := by
  obtain ⟨de, rs⟩ := d
  cases de <;> simp [operationDict, alookup]

theorem nodup_keys_operationDict (d : DescribeRouteSpec) :
    ((operationDict d).map Prod.fst).Nodup := by
  obtain ⟨de, rs⟩ := d
  cases de <;> simp [operationDict]

theorem mergeObj_nil_operationDict (d : DescribeRouteSpec) :
    mergeObj [] (operationDict d) = operationDict d := by
  obtain ⟨de, rs⟩ := d
  cases de <;> simp [operationDict, mergeObj, insertKV]

theorem alookup_buildResponses_unique (rs : List (String × RouteResponse)) (k : String)
    (resp : RouteResponse) (hnd : (rs.map (fun kr => respKey kr.1 kr.2)).Nodup)
    (hmem : (k, resp) ∈ rs) :
    alookup (buildResponses rs) (respKey k resp)
      = some (Json.obj (normalizeResponse resp)) := by
  unfold buildResponses
  rw [alookup_foldl_insertKV (fun kr => respKey kr.1 kr.2)
    (fun kr => Json.obj (normalizeResponse kr.2)) rs [] (respKey k resp)]
  have h := lastSome_key_unique (fun kr => respKey kr.1 kr.2)
    (fun kr => Json.obj (normalizeResponse kr.2)) rs (k, resp) hnd hmem
  rw [h]
  rfl

theorem opLookup_insert2 (paths : List (String × List (String × List (String × Json))))
    (p m : String) (x : List (String × Json)) :
    opLookup (insertKV paths p (insertKV ((alookup paths p).getD []) m x)) p m = some x := by
  unfold opLookup
  rw [alookup_insertKV_self]
  simp

theorem opLookup_insert2_ne_method (paths : List (String × List (String × List (String × Json))))
    (p m0 m : String) (x : List (String × Json)) (h : m ≠ m0) :
    opLookup (insertKV paths p (insertKV ((alookup paths p).getD []) m0 x)) p m
      = opLookup paths p m := by
  have h2 : ¬(m0 = m) := fun he => h he.symm
  unfold opLookup
  rw [alookup_insertKV_self]
  cases halo : alookup paths p with
  | none => simp [halo, insertKV, alookup, h2]
  | some po =>
    simp only [halo, Option.getD_some]
    show alookup (insertKV po m0 x) m = alookup po m
    exact alookup_insertKV_ne po m0 m x h

theorem opLookup_insert_ne_path (paths : List (String × List (String × List (String × Json))))
    (p2 p m : String) (y : List (String × List (String × Json))) (h : p ≠ p2) :
    opLookup (insertKV paths p2 y) p m = opLookup paths p m := by
  unfold opLookup
  rw [alookup_insertKV_ne paths p2 p y h]

theorem opLookup_addRoute (paths : List (String × List (String × List (String × Json))))
    (r : RegisteredRoute) (p m : String) :
    opLookup (addRoute paths r) p m = stepF p m (opLookup paths p m) r := by
  cases hdoc : r.doc with
  | none => simp [addRoute, stepF, hdoc]
  | some d =>
    simp only [addRoute, hdoc, stepF]
    by_cases hp : r.path = p
    · subst hp
      by_cases hm : toLowerStr r.method = m
      · subst hm
        rw [if_pos ⟨rfl, rfl⟩, opLookup_insert2]
        have h3 : (alookup ((alookup paths r.path).getD []) (toLowerStr r.method)).getD []
            = (opLookup paths r.path (toLowerStr r.method)).getD [] := by
          unfold opLookup
          cases halo : alookup paths r.path <;> simp [halo, alookup]
        rw [h3]
      · rw [if_neg (fun hc => hm hc.2)]
        exact opLookup_insert2_ne_method paths r.path (toLowerStr r.method) m _
          (fun he => hm he.symm)
    · rw [if_neg (fun hc => hp hc.1)]
      exact opLookup_insert_ne_path paths r.path p m _ (fun he => hp he.symm)

theorem opLookup_buildPaths (routes : List RegisteredRoute) (p m : String) :
    opLookup (buildPaths routes) p m = routes.foldl (stepF p m) none := by
  suffices h : ∀ acc, opLookup (routes.foldl addRoute acc) p m
      = routes.foldl (stepF p m) (opLookup acc p m) by
    have h2 := h []
    simpa [opLookup, alookup] using h2
  induction routes with
  | nil => intro acc; rfl
  | cons r tl ih =>
    intro acc
    show opLookup (tl.foldl addRoute (addRoute acc r)) p m = _
    rw [ih (addRoute acc r), opLookup_addRoute]
    rfl

theorem foldl_stepF_no_match (routes : List RegisteredRoute) (p m : String)
    (init : Option (List (String × Json)))
    (h : ∀ r ∈ routes, ¬(r.path = p ∧ toLowerStr r.method = m)) :
    routes.foldl (stepF p m) init = init := by
  induction routes generalizing init with
  | nil => rfl
  | cons r tl ih =>
    show tl.foldl (stepF p m) (stepF p m init r) = init
    have h1 : stepF p m init r = init := by
      have hcon := h r (List.mem_cons_self r tl)
      cases hdoc : r.doc with
      | none => simp [stepF, hdoc]
      | some d => simp [stepF, hdoc, hcon]
    rw [h1]
    exact ih init (fun r2 hr2 => h r2 (List.mem_cons_of_mem r hr2))

theorem foldl_stepF_unique (routes : List RegisteredRoute) (r : RegisteredRoute)
    (d : DescribeRouteSpec) (hnd : (routes.map routeKey).Nodup) (hr : r ∈ routes)
    (hdoc : r.doc = some d) :
    routes.foldl (stepF r.path (toLowerStr r.method)) none
      = some (mergeObj [] (operationDict d)) := by
  induction routes with
  | nil => cases hr
  | cons r0 tl ih =>
    simp only [List.map_cons, List.nodup_cons] at hnd
    show tl.foldl _ (stepF r.path (toLowerStr r.method) none r0) = _
    rcases List.mem_cons.mp hr with he | hmem
    · subst he
      have h1 : stepF r.path (toLowerStr r.method) none r
          = some (mergeObj [] (operationDict d)) := by
        simp [stepF, hdoc]
      rw [h1]
      apply foldl_stepF_no_match
      intro r2 hr2 hcon
      apply hnd.1
      have hkey : routeKey r2 = routeKey r := by
        unfold routeKey
        rw [hcon.1, hcon.2]
      exact hkey ▸ List.mem_map_of_mem routeKey hr2
    · have h1 : stepF r.path (toLowerStr r.method) none r0 = none := by
        cases hdoc0 : r0.doc with
        | none => simp [stepF, hdoc0]
        | some d0 =>
          simp only [stepF, hdoc0]
          rw [if_neg]
          intro hcon
          apply hnd.1
          have hkey : routeKey r0 = routeKey r := by
            unfold routeKey
            rw [hcon.1, hcon.2]
          exact hkey ▸ List.mem_map_of_mem routeKey hmem
      rw [h1]
      exact ih hnd.2 hmem

theorem docOp_generateSpecs (routes : List RegisteredRoute) (p m : String) :
    docOp (generateSpecs routes) p m = (opLookup (buildPaths routes) p m).map Json.obj := by
  have h1 : jlookup (generateSpecs routes) "paths" = some (pathsToJson (buildPaths routes)) := by
    simp [generateSpecs, jlookup, alookup]
  unfold docOp
  rw [h1]
  have h2 : jlookup (pathsToJson (buildPaths routes)) p
      = (alookup (buildPaths routes) p).map
          (fun po => Json.obj (po.map (fun me => (me.1, Json.obj me.2)))) := by
    show alookup ((buildPaths routes).map
        (fun pe => (pe.1, Json.obj (pe.2.map (fun me => (me.1, Json.obj me.2)))))) p = _
    exact alookup_map_snd (fun po => Json.obj (po.map (fun me => (me.1, Json.obj me.2))))
      (buildPaths routes) p
  show (jlookup (pathsToJson (buildPaths routes)) p).bind (fun po => jlookup po m) = _
  rw [h2]
  cases halo : alookup (buildPaths routes) p with
  | none => simp [opLookup, halo]
  | some po =>
    show alookup (po.map (fun me => (me.1, Json.obj me.2))) m = _
    rw [alookup_map_snd Json.obj po m]
    simp [opLookup, halo]

theorem docOp_unique (routes : List RegisteredRoute) (r : RegisteredRoute)
    (d : DescribeRouteSpec) (hnd : (routes.map routeKey).Nodup) (hr : r ∈ routes)
    (hdoc : r.doc = some d) :
    docOp (generateSpecs routes) r.path (toLowerStr r.method)
      = some (Json.obj (operationDict d)) := by
  rw [docOp_generateSpecs, opLookup_buildPaths,
    foldl_stepF_unique routes r d hnd hr hdoc, mergeObj_nil_operationDict]
  rfl

theorem respLookup_unique (routes : List RegisteredRoute) (r : RegisteredRoute)
    (d : DescribeRouteSpec) (k : String) (resp : RouteResponse)
    (hnd : (routes.map routeKey).Nodup) (hr : r ∈ routes) (hdoc : r.doc = some d)
    (hnd2 : (d.responses.map (fun kr => respKey kr.1 kr.2)).Nodup)
    (hmem : (k, resp) ∈ d.responses) :
    respLookup (generateSpecs routes) r.path (toLowerStr r.method) (respKey k resp)
      = some (Json.obj (normalizeResponse resp)) := by
  unfold respLookup
  rw [docOp_unique routes r d hnd hr hdoc]
  show (alookup (operationDict d) "responses").bind (fun rs => jlookup rs (respKey k resp)) = _
  rw [alookup_operationDict_responses d]
  show alookup (buildResponses d.responses) (respKey k resp) = _
  exact alookup_buildResponses_unique d.responses k resp hnd2 hmem

theorem pathsInv_addRoute (acc : List (String × List (String × List (String × Json))))
    (r : RegisteredRoute) (h : PathsInv acc) : PathsInv (addRoute acc r) := by
  cases hdoc : r.doc with
  | none => simpa [addRoute, hdoc] using h
  | some d =>
    simp only [addRoute, hdoc]
    obtain ⟨h1, h2⟩ := h
    constructor
    · exact nodup_keys_insertKV _ _ _ h1
    · intro pe hpe
      rcases mem_insertKV _ _ _ _ hpe with he | he
      · subst he
        constructor
        · apply nodup_keys_insertKV
          cases halo : alookup acc r.path with
          | none => simp [halo]
          | some po =>
            simp only [halo, Option.getD_some]
            exact (h2 (r.path, po) (alookup_mem acc r.path po halo)).1
        · intro me hme
          rcases mem_insertKV _ _ _ _ hme with he2 | he2
          · subst he2
            apply nodup_keys_mergeObj
            cases halo : alookup acc r.path with
            | none => simp [halo, alookup]
            | some po =>
              cases halo2 : alookup po (toLowerStr r.method) with
              | none => simp [halo, halo2]
              | some op =>
                simp only [halo, halo2, Option.getD_some]
                exact (h2 (r.path, po) (alookup_mem _ _ _ halo)).2 (toLowerStr r.method, op)
                  (alookup_mem _ _ _ halo2)
          · cases halo : alookup acc r.path with
            | none =>
              rw [halo] at he2
              simp at he2
            | some po =>
              rw [halo] at he2
              simp only [Option.getD_some] at he2
              exact (h2 (r.path, po) (alookup_mem _ _ _ halo)).2 me he2
      · exact h2 pe he

theorem pathsInv_buildPaths (routes : List RegisteredRoute) : PathsInv (buildPaths routes) := by
  suffices h : ∀ acc, PathsInv acc → PathsInv (routes.foldl addRoute acc) by
    refine h [] ⟨List.nodup_nil, ?_⟩
    intro pe hpe
    cases hpe
  induction routes with
  | nil => intro acc h; exact h
  | cons r tl ih => intro acc h; exact ih (addRoute acc r) (pathsInv_addRoute acc r h)

/-! ## Properties of the build script embedding -/

theorem insertKV_map_snd {α : Type u} {β : Type v} (g : α → β) (l : List (String × α))
    (k : String) (v : α) :
    (insertKV l k v).map (fun e => (e.1, g e.2))
      = insertKV (l.map (fun e => (e.1, g e.2))) k (g v) := by
  induction l with
  | nil => simp [insertKV]
  | cons hd tl ih =>
    obtain ⟨k1, v1⟩ := hd
    by_cases h : k1 = k
    · subst h
      rw [insertKV_cons_self]
      simp only [List.map_cons]
      rw [insertKV_cons_self]
    · rw [insertKV_cons_ne _ _ _ _ _ h]
      simp only [List.map_cons]
      rw [insertKV_cons_ne _ _ _ _ _ h, ih]

theorem jsrExports_eq_map (targets : List BuildTarget) :
    jsrExports targets = (pkgExports targets).map (fun e => (e.1, e.2.importPath)) := by
  suffices h : ∀ acc,
      targets.foldl (fun a t => insertKV a t.exportKey ("./" ++ pathPrefOf t ++ "index.js"))
          (acc.map (fun e => (e.1, e.2.importPath)))
        = (targets.foldl (fun a t => insertKV a t.exportKey (pkgExportFor t)) acc).map
            (fun e => (e.1, e.2.importPath)) by
    simpa [jsrExports, pkgExports] using h []
  induction targets with
  | nil => intro acc; rfl
  | cons t tl ih =>
    intro acc
    show tl.foldl _
        (insertKV (acc.map (fun e => (e.1, e.2.importPath))) t.exportKey
          ("./" ++ pathPrefOf t ++ "index.js")) = _
    rw [show ("./" ++ pathPrefOf t ++ "index.js") = (pkgExportFor t).importPath from rfl,
      ← insertKV_map_snd (fun e => PkgExportEntry.importPath e) acc t.exportKey (pkgExportFor t)]
    exact ih (insertKV acc t.exportKey (pkgExportFor t))

theorem alookup_depsFold (bundled : List String) (d : List (String × String)) (name : String) :
    (alookup
        (d.foldl
          (fun acc nv =>
            if bundled.contains nv.1 then acc else insertKV acc nv.1 nv.2)
          []) name).isSome
      ↔ (name ∈ d.map Prod.fst ∧ name ∉ bundled) := by
  suffices h : ∀ acc,
      (alookup
          (d.foldl
            (fun acc nv =>
              if bundled.contains nv.1 then acc else insertKV acc nv.1 nv.2)
            acc) name).isSome
        ↔ ((alookup acc name).isSome ∨ (name ∈ d.map Prod.fst ∧ name ∉ bundled)) by
    simpa [alookup] using h []
  induction d with
  | nil => intro acc; simp
  | cons nv tl ih =>
    obtain ⟨n, v⟩ := nv
    intro acc
    show (alookup (tl.foldl _ (if bundled.contains n then acc else insertKV acc n v)) name).isSome
        ↔ _
    by_cases hb : bundled.contains n = true
    · rw [if_pos hb, ih acc]
      simp only [List.map_cons, List.mem_cons]
      constructor
      · rintro (h1 | ⟨h2, h3⟩)
        · exact Or.inl h1
        · exact Or.inr ⟨Or.inr h2, h3⟩
      · rintro (h1 | ⟨h2 | h2, h3⟩)
        · exact Or.inl h1
        · exact absurd (h2 ▸ List.elem_iff.mp hb) h3
        · exact Or.inr ⟨h2, h3⟩
    · rw [if_neg hb, ih (insertKV acc n v)]
      by_cases he : name = n
      · subst he
        have hnb : name ∉ bundled := fun hm => hb (List.elem_iff.mpr hm)
        simp [hnb]
      · rw [alookup_insertKV_ne acc n name v he]
        simp only [List.map_cons, List.mem_cons]
        constructor
        · rintro (h1 | ⟨h2, h3⟩)
          · exact Or.inl h1
          · exact Or.inr ⟨Or.inr h2, h3⟩
        · rintro (h1 | ⟨h2 | h2, h3⟩)
          · exact Or.inl h1
          · exact absurd h2 he
          · exact Or.inr ⟨h2, h3⟩

theorem mem_computeExternal (cfg : Config) (rootPkg : Option RootPackageJson) (name : String) :
    name ∈ computeExternal cfg rootPkg
      ↔ (name ∈ rootDepNames rootPkg ++ rootPeerDepNames rootPkg
          ∧ name ∉ cfg.bundledDependencies) := by
  unfold computeExternal
  rw [List.mem_filter]
  constructor
  · rintro ⟨h1, h2⟩
    refine ⟨h1, fun hm => ?_⟩
    rw [Bool.not_eq_true', ← Bool.not_eq_true] at h2
    exact h2 (List.elem_iff.mpr hm)
  · rintro ⟨h1, h2⟩
    refine ⟨h1, ?_⟩
    rw [Bool.not_eq_true', ← Bool.not_eq_true]
    exact fun hc => h2 (List.elem_iff.mp hc)

theorem alookup_distDependencies (cfg : Config) (rootPkg : Option RootPackageJson)
    (name : String) :
    (alookup (distDependencies cfg rootPkg) name).isSome
      ↔ (cfg.includeDependencies = true ∧ name ∈ rootDepNames rootPkg
          ∧ name ∉ cfg.bundledDependencies) := by
  cases rootPkg with
  | none => simp [distDependencies, rootDepNames, alookup]
  | some p =>
    by_cases hinc : cfg.includeDependencies = true
    · cases hd : p.dependencies with
      | none => simp [distDependencies, hinc, hd, rootDepNames, alookup]
      | some dl =>
        rw [show distDependencies cfg (some p)
            = dl.foldl
                (fun acc nv =>
                  if cfg.bundledDependencies.contains nv.1 then acc else insertKV acc nv.1 nv.2)
                [] from by simp [distDependencies, hinc, hd]]
        rw [alookup_depsFold cfg.bundledDependencies dl name]
        simp [rootDepNames, hd, hinc]
    · simp [distDependencies, hinc, alookup]

theorem getEntrypoints_no_match (cfg : Config) (files : List String)
    (h : ∀ f ∈ files, baseName f ≠ cfg.entryFile) :
    getEntrypoints cfg files
      = Except.error ("Nenhum " ++ cfg.entryFile ++ " encontrado em " ++ cfg.srcDir ++ "/") := by
  have hfil : files.filter (matchesEntryGlob cfg) = [] := by
    apply List.filter_eq_nil_iff.mpr
    intro f hf
    simp only [matchesEntryGlob, ne_eq, beq_iff_eq]
    exact h f hf
  simp [getEntrypoints, hfil]

/-! ## The claims -/

/-- C1: for every route registered with `describeRoute` whose responses
entry carries a validation schema but no explicit content type,
`generateSpecs` emits that response with the schema wrapped under
`content`/`application/json`/`schema`, and the emitted response object has
no top-level `schema` field. -/
theorem generateSpecs_wraps_schema_default_json (routes : List RegisteredRoute)
    (r : RegisteredRoute) (d : DescribeRouteSpec) (k : String) (resp : RouteResponse)
    (s : Schema) (hnd : (routes.map routeKey).Nodup) (hr : r ∈ routes)
    (hdoc : r.doc = some d) (hnd2 : (d.responses.map (fun kr => respKey kr.1 kr.2)).Nodup)
    (hmem : (k, resp) ∈ d.responses) (hs : resp.schema = some s) (ht : resp.type = none) :
    respLookup (generateSpecs routes) r.path (toLowerStr r.method) (respKey k resp)
        = some (Json.obj (normalizeResponse resp))
      ∧ alookup (normalizeResponse resp) "content"
        = some (Json.obj [("application/json", Json.obj [("schema", convertSchema s)])])
      ∧ alookup (normalizeResponse resp) "schema" = none := by
  refine ⟨respLookup_unique routes r d k resp hnd hr hdoc hnd2 hmem, ?_,
    alookup_normalizeResponse_schemaKey resp⟩
  have h := alookup_normalizeResponse_content resp s hs
  rw [ht] at h
  simpa using h

/-- Witness for C1, on the route of the "simple schema" test. -/
theorem generateSpecs_wraps_schema_default_json_witness :
    respLookup (generateSpecs [sampleRoute]) "/" "get" "200"
        = some (Json.obj (normalizeResponse sampleResp))
      ∧ alookup (normalizeResponse sampleResp) "content"
        = some (Json.obj [("application/json", Json.obj [("schema", convertSchema 1)])])
      ∧ alookup (normalizeResponse sampleResp) "schema" = none :=
  generateSpecs_wraps_schema_default_json [sampleRoute] sampleRoute sampleDoc "200" sampleResp 1
    (by decide) (List.mem_singleton_self sampleRoute) rfl (by decide)
    (List.mem_singleton_self ("200", sampleResp)) rfl rfl

/-- C2: for every route registered with `describeRoute` whose responses
entry carries a convenience `status` field, `generateSpecs` keys the
emitted response under that status code in the responses map and removes
the `status` field from the emitted response object. -/
theorem generateSpecs_collapses_status_field (routes : List RegisteredRoute)
    (r : RegisteredRoute) (d : DescribeRouteSpec) (k : String) (resp : RouteResponse)
    (n : Nat) (hnd : (routes.map routeKey).Nodup) (hr : r ∈ routes)
    (hdoc : r.doc = some d) (hnd2 : (d.responses.map (fun kr => respKey kr.1 kr.2)).Nodup)
    (hmem : (k, resp) ∈ d.responses) (hstat : resp.status = some n) :
    respKey k resp = toString n
      ∧ respLookup (generateSpecs routes) r.path (toLowerStr r.method) (toString n)
        = some (Json.obj (normalizeResponse resp))
      ∧ alookup (normalizeResponse resp) "status" = none := by
  have hk : respKey k resp = toString n := by
    simp [respKey, hstat]
  refine ⟨hk, ?_, alookup_normalizeResponse_statusKey resp⟩
  rw [← hk]
  exact respLookup_unique routes r d k resp hnd hr hdoc hnd2 hmem

/-- Witness for C2, on the route of the "with status property" test. -/
theorem generateSpecs_collapses_status_field_witness :
    respKey "200" sampleRespStatus = toString 200
      ∧ respLookup (generateSpecs [sampleRouteStatus]) "/" "get" "200"
        = some (Json.obj (normalizeResponse sampleRespStatus))
      ∧ alookup (normalizeResponse sampleRespStatus) "status" = none :=
  generateSpecs_collapses_status_field [sampleRouteStatus] sampleRouteStatus sampleDocStatus
    "200" sampleRespStatus 200 (by decide) (List.mem_singleton_self sampleRouteStatus) rfl
    (by decide) (List.mem_singleton_self ("200", sampleRespStatus)) rfl

/-- C3: for every route registered with `describeRoute` whose responses
entry specifies an explicit content type via its `type` field,
`generateSpecs` uses that media type as the key of the response's `content`
map, wrapping the schema under it instead of the default media type. -/
theorem generateSpecs_uses_custom_content_type (routes : List RegisteredRoute)
    (r : RegisteredRoute) (d : DescribeRouteSpec) (k : String) (resp : RouteResponse)
    (s : Schema) (t : String) (hnd : (routes.map routeKey).Nodup) (hr : r ∈ routes)
    (hdoc : r.doc = some d) (hnd2 : (d.responses.map (fun kr => respKey kr.1 kr.2)).Nodup)
    (hmem : (k, resp) ∈ d.responses) (hs : resp.schema = some s) (ht : resp.type = some t) :
    respLookup (generateSpecs routes) r.path (toLowerStr r.method) (respKey k resp)
        = some (Json.obj (normalizeResponse resp))
      ∧ alookup (normalizeResponse resp) "content"
        = some (Json.obj [(t, Json.obj [("schema", convertSchema s)])]) := by
  refine ⟨respLookup_unique routes r d k resp hnd hr hdoc hnd2 hmem, ?_⟩
  have h := alookup_normalizeResponse_content resp s hs
  rw [ht] at h
  simpa using h

/-- Witness for C3, on the route of the "custom type" test. -/
theorem generateSpecs_uses_custom_content_type_witness :
    respLookup (generateSpecs [sampleRouteTyped]) "/" "get" "400"
        = some (Json.obj (normalizeResponse sampleRespTyped))
      ∧ alookup (normalizeResponse sampleRespTyped) "content"
        = some (Json.obj
            [("application/problem+json", Json.obj [("schema", convertSchema 1)])]) :=
  generateSpecs_uses_custom_content_type [sampleRouteTyped] sampleRouteTyped sampleDocTyped
    "400" sampleRespTyped 1 "application/problem+json" (by decide)
    (List.mem_singleton_self sampleRouteTyped) rfl (by decide)
    (List.mem_singleton_self ("400", sampleRespTyped)) rfl rfl

/-- C4: `generateSpecs` produces a single aggregated document in the
OpenAPI shape whose operations are keyed first by route path under `paths`
and then by lower-case HTTP method, with the per-route metadata
(description, responses) attached under that path/method entry. -/
theorem generateSpecs_aggregates_by_path_and_method (routes : List RegisteredRoute)
    (r : RegisteredRoute) (d : DescribeRouteSpec) (hnd : (routes.map routeKey).Nodup)
    (hr : r ∈ routes) (hdoc : r.doc = some d) :
    generateSpecs routes
        = Json.obj [("openapi", Json.str "3.1.0"), ("paths", pathsToJson (buildPaths routes))]
      ∧ docOp (generateSpecs routes) r.path (toLowerStr r.method)
        = some (Json.obj (operationDict d))
      ∧ alookup (operationDict d) "responses" = some (Json.obj (buildResponses d.responses))
      ∧ alookup (operationDict d) "description" = Option.map Json.str d.description :=
  ⟨rfl, docOp_unique routes r d hnd hr hdoc, alookup_operationDict_responses d,
    alookup_operationDict_description d⟩

/-- Witness for C4, on the route of the "simple schema" test. -/
theorem generateSpecs_aggregates_by_path_and_method_witness :
    generateSpecs [sampleRoute]
        = Json.obj
            [("openapi", Json.str "3.1.0"), ("paths", pathsToJson (buildPaths [sampleRoute]))]
      ∧ docOp (generateSpecs [sampleRoute]) "/" "get" = some (Json.obj (operationDict sampleDoc))
      ∧ alookup (operationDict sampleDoc) "responses"
        = some (Json.obj (buildResponses sampleDoc.responses))
      ∧ alookup (operationDict sampleDoc) "description"
        = Option.map Json.str sampleDoc.description :=
  generateSpecs_aggregates_by_path_and_method [sampleRoute] sampleRoute sampleDoc (by decide)
    (List.mem_singleton_self sampleRoute) rfl

/-- C5: in the aggregated document keys are unique, and merging several
metadata dictionaries for the same path and HTTP method is last-write-wins:
every key receives the value from the dictionary merged last that mentions
it. -/
theorem generateSpecs_unique_keys_last_write_wins (ds : List (List (String × Json)))
    (k : String) (routes : List RegisteredRoute) (p : String)
    (po : List (String × List (String × Json)))
    (hpo : alookup (buildPaths routes) p = some po) :
    alookup (mergeAll ds) k = lastWins ds k
      ∧ ((mergeAll ds).map Prod.fst).Nodup
      ∧ ((buildPaths routes).map Prod.fst).Nodup
      ∧ (po.map Prod.fst).Nodup := by
  have hinv := pathsInv_buildPaths routes
  exact ⟨alookup_mergeAll ds k, nodup_keys_mergeAll ds, hinv.1,
    (hinv.2 (p, po) (alookup_mem _ _ _ hpo)).1⟩

/-- Witness for C5: two one-entry dictionaries fighting over the key `a`,
and the paths dictionary of the "simple schema" test route. -/
theorem generateSpecs_unique_keys_last_write_wins_witness :
    alookup (mergeAll [[("a", Json.num 1)], [("a", Json.num 2)]]) "a"
        = lastWins [[("a", Json.num 1)], [("a", Json.num 2)]] "a"
      ∧ ((mergeAll [[("a", Json.num 1)], [("a", Json.num 2)]]).map Prod.fst).Nodup
      ∧ ((buildPaths [sampleRoute]).map Prod.fst).Nodup
      ∧ (([("get", operationDict sampleDoc)] :
            List (String × List (String × Json))).map Prod.fst).Nodup :=
  generateSpecs_unique_keys_last_write_wins [[("a", Json.num 1)], [("a", Json.num 2)]] "a"
    [sampleRoute] "/" [("get", operationDict sampleDoc)] rfl

/-- C6: `generateSpecs` is deterministic — two runs on the same registered
routes with the same `describeRoute` metadata produce equal documents. -/
theorem generateSpecs_deterministic (rs1 rs2 : List RegisteredRoute) (h : rs1 = rs2) :
    generateSpecs rs1 = generateSpecs rs2 := by
  rw [h]

/-- Witness for C6, on the route of the "simple schema" test. -/
theorem generateSpecs_deterministic_witness :
    generateSpecs [sampleRoute] = generateSpecs [sampleRoute] :=
  generateSpecs_deterministic [sampleRoute] [sampleRoute] rfl

/-- C7: the aggregation of `generateSpecs` is total — for every input list
of routes it returns a document (the embedding is a total function into the
OpenAPI document shape, with no other failure mode). -/
theorem generateSpecs_total (routes : List RegisteredRoute) :
    ∃ ps, generateSpecs routes = Json.obj [("openapi", Json.str "3.1.0"), ("paths", ps)] :=
  ⟨pathsToJson (buildPaths routes), rfl⟩

/-- C8: when no file named `index.ts` exists at any depth under the source
directory, `getEntrypoints` throws, `main` reports the error and exits with
status code 1, and neither the dist `package.json` nor `jsr.json` is
generated. -/
theorem main_exits_one_without_entrypoint (files : List String) (bundleOk declOk : Bool)
    (h : ∀ f ∈ files, baseName f ≠ CONFIG.entryFile) :
    (∃ msg, getEntrypoints CONFIG files = Except.error msg)
      ∧ mainModel CONFIG files bundleOk declOk
        = { exitCode := 1, wrotePackageJson := false, wroteJsrJson := false } := by
  have he := getEntrypoints_no_match CONFIG files h
  exact ⟨⟨_, he⟩, by simp [mainModel, he]⟩

/-- Witness for C8: a source tree holding only non-entrypoint files. -/
theorem main_exits_one_without_entrypoint_witness :
    (∃ msg,
        getEntrypoints CONFIG ["handler.ts", "middlewares.ts", "utils/helper.ts"]
          = Except.error msg)
      ∧ mainModel CONFIG ["handler.ts", "middlewares.ts", "utils/helper.ts"] true true
        = { exitCode := 1, wrotePackageJson := false, wroteJsrJson := false } :=
  main_exits_one_without_entrypoint ["handler.ts", "middlewares.ts", "utils/helper.ts"]
    true true (by decide)

/-- C9: for every list of build targets, the `exports` maps written by
`generatePackageJson` and by `generateJsrJson` have exactly the same keys,
and for each key the `jsr.json` value equals the `import` path of the
corresponding `package.json` export entry. -/
theorem packageJson_jsrJson_exports_agree (targets : List BuildTarget) (k : String) :
    (pkgExports targets).map Prod.fst = (jsrExports targets).map Prod.fst
      ∧ alookup (jsrExports targets) k
        = (alookup (pkgExports targets) k).map PkgExportEntry.importPath := by
  constructor
  · rw [jsrExports_eq_map]
    simp [Function.comp]
  · rw [jsrExports_eq_map]
    exact alookup_map_snd PkgExportEntry.importPath (pkgExports targets) k

/-- C10: every dependency named in `bundledDependencies` is excluded both
from the `external` list `buildJS` passes to the bundler and from the
`dependencies` map of the generated dist `package.json`, while every other
root dependency (and peer dependency, for externalization) is included. -/
theorem bundledDependencies_excluded_consistently (cfg : Config)
    (rootPkg : Option RootPackageJson) (name : String) :
    (name ∈ computeExternal cfg rootPkg
        ↔ (name ∈ rootDepNames rootPkg ++ rootPeerDepNames rootPkg
            ∧ name ∉ cfg.bundledDependencies))
      ∧ ((alookup (distDependencies cfg rootPkg) name).isSome
        ↔ (cfg.includeDependencies = true ∧ name ∈ rootDepNames rootPkg
            ∧ name ∉ cfg.bundledDependencies)) :=
  ⟨mem_computeExternal cfg rootPkg name, alookup_distDependencies cfg rootPkg name⟩

end HonoOpenapi
